import Mathlib

/-!
Verification of the batch-pin event aggregation and persistence core of
the firefly repository, against its natural-language specification.

Go strings are modelled as `List Char` (`Str`), so that byte/character
lengths, `strings.Join` (`List.intercalate`) and `strings.Split`
(`List.splitOn`) have exact counterparts.
-/

abbrev Str := List Char

/-- Go error values are modelled by an abstract message string. -/
abbrev GoErr := Str

namespace FFTypes

/-- `FFStringNameItemsMax` from `pkg/fftypes/stringarray.go`:
because each FFName has a max length of 64, 15 names (plus comma
delimiters) is a safe max to pack into a string column of length 1024. -/
def FFStringNameItemsMax : Nat := 15

/-- `FFStringArrayStandardMax` from `pkg/fftypes/stringarray.go`:
the standard length set as a VARCHAR max in tables for a string array. -/
def FFStringArrayStandardMax : Nat := 1024

/-- A character admitted by the FireFly name grammar. -/
def ffNameChar (c : Char) : Bool :=
  (('a' ≤ c ∧ c ≤ 'z') ∨ ('0' ≤ c ∧ c ≤ '9') ∨ c = '-' ∨ c = '_' : Prop)

/-- Modelled from the spec: `ValidateFFNameField` (the FireFly name
grammar; the implementation file is not part of the provided sources).
Per the spec: lowercase ASCII, digits, dash/underscore; 1-64 chars. -/
def validateFFNameField (s : Str) : Bool :=
  decide (1 ≤ s.length) && decide (s.length ≤ 64) && s.all ffNameChar

/-- The distinct error outcomes of `FFStringArray.Validate`
(`MsgDuplicateArrayEntry`, a name-grammar failure from
`ValidateFFNameField`, `MsgTooManyItems`, `MsgFieldTooLong`). -/
inductive ValidateErr
  | duplicateArrayEntry (i : Nat) (n : Str)
  | badName (i : Nat)
  | tooManyItems (count : Nat)
  | fieldTooLong
  deriving DecidableEq

/-- The `for i, n := range sa` loop body of `FFStringArray.Validate`:
duplicate check against entries seen so far, accumulate `totalLength`,
and (when `isName`) validate each entry against the name grammar.
On success returns the final `totalLength`. -/
def validateLoop (isName : Bool) : List Str → List Str → Nat → Nat →
    Except ValidateErr Nat
  | [], _, _, total => .ok total
  | n :: rest, seen, i, total =>
    if n ∈ seen then
      .error (.duplicateArrayEntry i n)
    else if isName && !(validateFFNameField n) then
      .error (.badName i)
    else
      validateLoop isName rest (n :: seen) (i + 1) (total + n.length)

/-- `FFStringArray.Validate` from `pkg/fftypes/stringarray.go`:
the per-entry loop, then the `isName && len(sa) > FFStringNameItemsMax`
check, then the `totalLength > FFStringArrayStandardMax` check. -/
def ffValidate (sa : List Str) (isName : Bool) : Option ValidateErr :=
  match validateLoop isName sa [] 0 0 with
  | .error e => some e
  | .ok total =>
    if isName && decide (sa.length > FFStringNameItemsMax) then
      some (.tooManyItems sa.length)
    else if total > FFStringArrayStandardMax then
      some .fieldTooLong
    else
      none

/-- `FFStringArray.Value` from `pkg/fftypes/stringarray.go`: a nil array
serializes to the empty string, otherwise `strings.Join(sa, ",")`.
`none` models the Go nil slice. -/
def ffValue : Option (List Str) → Str
  | none => []
  | some sa => [','].intercalate sa

/-- The dynamic type of the `src` argument of `FFStringArray.Scan`. -/
inductive ScanSrc
  | str (s : Str)
  | bytes (b : Str)
  | arr (sa : List Str)
  | nullSrc
  | other
  deriving DecidableEq

/-- `FFStringArray.Scan` from `pkg/fftypes/stringarray.go`: empty
string/bytes and nil scan to the empty array, otherwise
`strings.Split(st, ",")`; an unsupported type is `MsgScanFailed`. -/
def ffScan : ScanSrc → Except GoErr (List Str)
  | .str s => if s = [] then .ok [] else .ok (s.splitOn ',')
  | .bytes b => if b = [] then .ok [] else .ok (b.splitOn ',')
  | .arr sa => .ok sa
  | .nullSrc => .ok []
  | .other => .error ('s' :: 'c' :: 'a' :: 'n' :: [])

/-- If the validate loop returns a total, it is the sum of the entry
lengths added to the accumulator. -/
theorem validateLoop_ok_sum (isName : Bool) (l : List Str) :
    ∀ seen i total t, validateLoop isName l seen i total = Except.ok t →
      t = total + (l.map List.length).sum := by
  induction l with
  | nil =>
    intro seen i total t h
    simp only [validateLoop, Except.ok.injEq] at h
    simp [h]
  | cons n rest ih =>
    intro seen i total t h
    rw [validateLoop] at h
    split at h
    · exact absurd h (by simp)
    · split at h
      · exact absurd h (by simp)
      · have := ih _ _ _ _ h
        simp only [List.map_cons, List.sum_cons, this]
        omega

/-- The validate loop succeeds on a duplicate-free list of entries not
seen before, when every entry passes the name grammar (if required). -/
theorem validateLoop_ok (isName : Bool) (l : List Str) :
    ∀ seen i total, (∀ n ∈ l, n ∉ seen) → l.Nodup →
      (isName = true → ∀ n ∈ l, validateFFNameField n = true) →
      validateLoop isName l seen i total =
        Except.ok (total + (l.map List.length).sum) := by
  induction l with
  | nil => intro seen i total _ _ _; simp [validateLoop]
  | cons n rest ih =>
    intro seen i total hseen hnd hname
    have hmem : n ∉ seen := hseen n (by simp)
    have hcond : (isName && !validateFFNameField n) = false := by
      cases hN : isName with
      | false => simp
      | true => simp [hname hN n (by simp)]
    rw [validateLoop, if_neg hmem, hcond]
    simp only [Bool.false_eq_true, if_false]
    rw [ih (n :: seen) (i + 1) (total + n.length)]
    · simp only [List.map_cons, List.sum_cons]
      congr 1
      omega
    · intro m hm
      simp only [List.mem_cons, not_or]
      exact ⟨fun hmn => (List.nodup_cons.mp hnd).1 (hmn ▸ hm),
        hseen m (by simp [hm])⟩
    · exact (List.nodup_cons.mp hnd).2
    · intro hN m hm; exact hname hN m (by simp [hm])

/-- The validate loop rejects a list containing a duplicate (either
internal or against the already-seen entries). -/
theorem validateLoop_dup (isName : Bool) (l : List Str) :
    ∀ seen i total, (¬ l.Nodup ∨ ∃ n ∈ l, n ∈ seen) →
      ∃ e, validateLoop isName l seen i total = Except.error e := by
  induction l with
  | nil =>
    intro seen i total h
    rcases h with h | ⟨n, hn, _⟩
    · exact absurd List.nodup_nil h
    · exact absurd hn (by simp)
  | cons n rest ih =>
    intro seen i total h
    by_cases hmem : n ∈ seen
    · exact ⟨_, by rw [validateLoop, if_pos hmem]⟩
    · by_cases hcond : (isName && !validateFFNameField n) = true
      · exact ⟨ValidateErr.badName i, by
          rw [validateLoop, if_neg hmem]; simp [hcond]⟩
      · have hrec : ¬ rest.Nodup ∨ ∃ m ∈ rest, m ∈ n :: seen := by
          rcases h with h | ⟨m, hm, hms⟩
          · rw [List.nodup_cons] at h
            push_neg at h
            by_cases hnr : n ∈ rest
            · exact Or.inr ⟨n, hnr, by simp⟩
            · exact Or.inl (h hnr)
          · rcases List.mem_cons.mp hm with rfl | hmr
            · exact absurd hms hmem
            · exact Or.inr ⟨m, hmr, by simp [hms]⟩
        obtain ⟨e, he⟩ := ih (n :: seen) (i + 1) (total + n.length) hrec
        refine ⟨e, ?_⟩
        rw [validateLoop, if_neg hmem]
        simp only [Bool.not_eq_true] at hcond
        rw [hcond]
        simpa using he

/-- The validate loop in name mode rejects a list containing an entry
that fails the name grammar. -/
theorem validateLoop_badName (l : List Str) :
    ∀ seen i total, (∃ n ∈ l, validateFFNameField n = false) →
      ∃ e, validateLoop true l seen i total = Except.error e := by
  induction l with
  | nil =>
    intro seen i total h
    obtain ⟨n, hn, _⟩ := h
    exact absurd hn (by simp)
  | cons n rest ih =>
    intro seen i total h
    by_cases hmem : n ∈ seen
    · exact ⟨_, by rw [validateLoop, if_pos hmem]⟩
    · by_cases hv : validateFFNameField n = true
      · have hrec : ∃ m ∈ rest, validateFFNameField m = false := by
          obtain ⟨m, hm, hmf⟩ := h
          rcases List.mem_cons.mp hm with rfl | hmr
          · rw [hv] at hmf; exact absurd hmf (by simp)
          · exact ⟨m, hmr, hmf⟩
        obtain ⟨e, he⟩ := ih (n :: seen) (i + 1) (total + n.length) hrec
        refine ⟨e, ?_⟩
        rw [validateLoop, if_neg hmem, hv]
        simpa using he
      · refine ⟨ValidateErr.badName i, ?_⟩
        rw [validateLoop, if_neg hmem]
        simp only [Bool.not_eq_true] at hv
        simp [hv]

end FFTypes

/-- **C2**: validation of a message's topics array (`FFStringArray.Validate`
with `isName = true`) rejects the array when it has more than 15 entries,
when any entry fails the name grammar (in particular any entry longer
than 64 characters), or when any entry duplicates an earlier entry; an
array meeting all three bounds passes the check. -/
theorem topics_validate_bounds :
    (∀ sa : List Str, 15 < sa.length →
      (FFTypes.ffValidate sa true).isSome = true) ∧
    (∀ (sa : List Str) (n : Str), n ∈ sa →
      FFTypes.validateFFNameField n = false →
      (FFTypes.ffValidate sa true).isSome = true) ∧
    (∀ n : Str, 64 < n.length → FFTypes.validateFFNameField n = false) ∧
    (∀ sa : List Str, ¬ sa.Nodup →
      (FFTypes.ffValidate sa true).isSome = true) ∧
    (∀ sa : List Str, sa.Nodup → sa.length ≤ 15 →
      (∀ n ∈ sa, FFTypes.validateFFNameField n = true) →
      FFTypes.ffValidate sa true = none) := by
  refine ⟨?tooMany, ?badName, ?long, ?dup, ?ok⟩
  case tooMany =>
    intro sa hlen
    rw [FFTypes.ffValidate]
    split
    · simp
    · rw [if_pos (by simp [FFTypes.FFStringNameItemsMax, hlen])]
      simp
  case badName =>
    intro sa n hn hbad
    obtain ⟨e, he⟩ := FFTypes.validateLoop_badName sa [] 0 0 ⟨n, hn, hbad⟩
    simp [FFTypes.ffValidate, he]
  case long =>
    intro n hlen
    simp [FFTypes.validateFFNameField, Nat.not_le.mpr hlen]
  case dup =>
    intro sa hnd
    obtain ⟨e, he⟩ := FFTypes.validateLoop_dup true sa [] 0 0 (Or.inl hnd)
    simp [FFTypes.ffValidate, he]
  case ok =>
    intro sa hnd hlen hnames
    have hloop := FFTypes.validateLoop_ok true sa [] 0 0
      (by simp) hnd (fun _ => hnames)
    have hsum : (sa.map List.length).sum ≤ sa.length * 64 := by
      have := List.sum_le_card_nsmul (sa.map List.length) 64 ?bound
      · simpa [smul_eq_mul, Nat.mul_comm] using this
      case bound =>
        intro x hx
        obtain ⟨n, hn, rfl⟩ := List.mem_map.mp hx
        have := hnames n hn
        simp only [FFTypes.validateFFNameField, Bool.and_eq_true,
          decide_eq_true_eq] at this
        exact this.1.2
    have h1 : ¬ (sa.length > FFTypes.FFStringNameItemsMax) := by
      simp only [FFTypes.FFStringNameItemsMax]; omega
    have h2 : ¬ (0 + (sa.map List.length).sum >
        FFTypes.FFStringArrayStandardMax) := by
      simp only [FFTypes.FFStringArrayStandardMax]; omega
    simp only [FFTypes.ffValidate, hloop]
    simp [h1, h2]
    simp only [FFTypes.FFStringArrayStandardMax]
    omega

/-- Witness for C2 at concrete topic arrays: 16 topics are rejected, an
uppercase topic name is rejected, a 65-character name fails the grammar,
a duplicated topic is rejected, and the two-topic array passes. -/
theorem topics_validate_bounds_witness :
    (FFTypes.ffValidate
      [['a'], ['b'], ['c'], ['d'], ['e'], ['f'], ['g'], ['h'], ['i'],
       ['j'], ['k'], ['l'], ['m'], ['n'], ['o'], ['p']] true).isSome
        = true ∧
    (FFTypes.ffValidate [['A']] true).isSome = true ∧
    FFTypes.validateFFNameField (List.replicate 65 'a') = false ∧
    (FFTypes.ffValidate [['a'], ['a']] true).isSome = true ∧
    FFTypes.ffValidate [['a'], ['b']] true = none :=
  ⟨topics_validate_bounds.1 _ (by decide),
   topics_validate_bounds.2.1 _ ['A'] (by decide) (by decide),
   topics_validate_bounds.2.2.1 _ (by simp),
   topics_validate_bounds.2.2.2.1 _ (by decide),
   topics_validate_bounds.2.2.2.2 _ (by decide) (by decide) (by decide)⟩

/-- **C10**: `FFStringArray.Validate` rejects any array whose total
entry length exceeds 1024 characters, also when `isName = false`; a
duplicate-free array within the total-length bound passes when
`isName = false`. -/
theorem stringarray_validate_total_length :
    (∀ sa : List Str,
      FFTypes.FFStringArrayStandardMax < (sa.map List.length).sum →
      (FFTypes.ffValidate sa false).isSome = true) ∧
    (∀ sa : List Str, sa.Nodup →
      (sa.map List.length).sum ≤ FFTypes.FFStringArrayStandardMax →
      FFTypes.ffValidate sa false = none) := by
  constructor
  · intro sa hbig
    rcases hloop : FFTypes.validateLoop false sa [] 0 0 with e | t
    · simp [FFTypes.ffValidate, hloop]
    · have ht : t = 0 + (sa.map List.length).sum :=
        FFTypes.validateLoop_ok_sum false sa [] 0 0 t hloop
      simp only [FFTypes.ffValidate, hloop]
      rw [if_neg (by simp)]
      rw [if_pos (by omega)]
      simp
  · intro sa hnd hsmall
    have hloop := FFTypes.validateLoop_ok false sa [] 0 0
      (by simp) hnd (by simp)
    simp only [FFTypes.ffValidate, hloop]
    rw [if_neg (by simp)]
    rw [if_neg (by omega)]

/-- Witness for C10: a single 1025-character entry is rejected even with
`isName = false`, and a short duplicate-free array passes. -/
theorem stringarray_validate_total_length_witness :
    (FFTypes.ffValidate [List.replicate 1025 'a'] false).isSome = true ∧
    FFTypes.ffValidate [['a'], ['b', 'b']] false = none :=
  ⟨stringarray_validate_total_length.1 _
      (by simp only [List.map_cons, List.map_nil, List.length_replicate,
        List.sum_cons, List.sum_nil, FFTypes.FFStringArrayStandardMax]
          ; omega),
   stringarray_validate_total_length.2 _ (by decide) (by decide)⟩

/-- **C9**: `Scan` applied to the string produced by `Value` returns the
original array, for arrays of non-empty comma-free entries; `Scan` of a
nil source, empty string, or empty bytes yields the empty array with no
error; and `Value` serializes a nil array as the empty string. -/
theorem stringarray_value_scan_roundtrip :
    (∀ sa : List Str, (∀ s ∈ sa, s ≠ [] ∧ ',' ∉ s) →
      FFTypes.ffScan (.str (FFTypes.ffValue (some sa))) = .ok sa) ∧
    FFTypes.ffScan .nullSrc = .ok [] ∧
    FFTypes.ffScan (.str []) = .ok [] ∧
    FFTypes.ffScan (.bytes []) = .ok [] ∧
    FFTypes.ffValue none = [] := by
  refine ⟨?roundtrip, by simp [FFTypes.ffScan], by simp [FFTypes.ffScan],
    by simp [FFTypes.ffScan], rfl⟩
  case roundtrip =>
    intro sa h
    cases sa with
    | nil => simp [FFTypes.ffValue, FFTypes.ffScan, List.intercalate]
    | cons s rest =>
      have hsplit : (([','].intercalate (s :: rest)).splitOn ',')
          = s :: rest :=
        List.splitOn_intercalate (s :: rest) ','
          (fun l hl => (h l hl).2) (by simp)
      have hne : [','].intercalate (s :: rest) ≠ [] := by
        intro hv
        rw [hv, List.splitOn_nil] at hsplit
        injection hsplit with h1 h2
        exact (h s (by simp)).1 h1.symm
      simp [FFTypes.ffValue, FFTypes.ffScan, hne, hsplit]

/-- Witness for C9 at a concrete two-entry array. -/
theorem stringarray_value_scan_roundtrip_witness :
    FFTypes.ffScan (.str (FFTypes.ffValue (some [['a'], ['b']])))
      = .ok [['a'], ['b']] :=
  stringarray_value_scan_roundtrip.1 [['a'], ['b']] (by decide)

namespace NamespacesDDL

/-!
Model of the `namespaces` migration DDL (the `CREATE TABLE namespaces`
statement with its two `CREATE UNIQUE INDEX` statements). Note the DDL
reads `CREATE UNIQUE INDEX namespaces_sequence ON operations(seq)`: the
seq index targets the `operations` table, not `namespaces`.
-/

/-- A row of the `namespaces` table: `id` uuid primary key, `seq`
bigint, `name` and `ntype` varchar(64) not null, `description`
varchar(4096) nullable, `created` bigint not null, `confirmed` bigint
nullable. -/
structure NamespaceRow where
  id : Nat
  seq : Int
  name : Str
  ntype : Str
  description : Option Str
  created : Int
  confirmed : Option Int
  deriving DecidableEq

/-- A row of the `operations` table, reduced to the one column the
migration's `namespaces_sequence` index touches. -/
structure OperationRow where
  seq : Int
  deriving DecidableEq

/-- The stored state constrained by the migration. -/
structure DBState where
  namespaces : List NamespaceRow
  operations : List OperationRow
  deriving DecidableEq

/-- Nullable varchar(4096) length constraint on `description`. -/
def descriptionOk : Option Str → Prop
  | none => True
  | some d => d.length ≤ 4096

instance : DecidablePred descriptionOk := by
  intro d
  cases d <;> simp [descriptionOk] <;> infer_instance

/-- A database state admitted by every constraint the migration
declares: the primary key on `namespaces(id)`, the varchar lengths, the
unique index `namespaces_sequence` on `operations(seq)`, and the unique
index `namespaces_name` on `namespaces(name)`. -/
def ddlAdmissible (db : DBState) : Prop :=
  (db.namespaces.map NamespaceRow.id).Nodup ∧
  (∀ r ∈ db.namespaces, r.name.length ≤ 64 ∧ r.ntype.length ≤ 64 ∧
    descriptionOk r.description) ∧
  (db.operations.map OperationRow.seq).Nodup ∧
  (db.namespaces.map NamespaceRow.name).Nodup

instance : DecidablePred ddlAdmissible := by
  intro db
  unfold ddlAdmissible
  infer_instance

/-- The property the claim asserts of the schema: any admissible state
has pairwise-distinct `seq` and pairwise-distinct `name` across the
stored namespace rows. -/
def claimedSeqNameUnique : Prop :=
  ∀ db : DBState, ddlAdmissible db →
    (db.namespaces.map NamespaceRow.seq).Nodup ∧
    (db.namespaces.map NamespaceRow.name).Nodup

/-- Two namespace rows with distinct ids and names but the same seq. -/
def nsRowA : NamespaceRow :=
  { id := 1, seq := 5, name := ['a'], ntype := ['l'], description := none,
    created := 0, confirmed := none }

/-- Second row sharing `seq = 5` with `nsRowA`. -/
def nsRowB : NamespaceRow :=
  { id := 2, seq := 5, name := ['b'], ntype := ['l'], description := none,
    created := 0, confirmed := none }

/-- A database state holding both rows and no operations rows. -/
def dupSeqState : DBState := { namespaces := [nsRowA, nsRowB], operations := [] }

end NamespacesDDL

/-- **C4** (schema defect): the migration as written does NOT enforce
uniqueness of `seq` on the `namespaces` table — its
`namespaces_sequence` unique index is declared on `operations(seq)` — so
an admissible state can hold two distinct namespace rows with equal
`seq` values; the claimed property fails, while `name` uniqueness does
hold. -/
theorem namespaces_seq_index_wrong_table :
    NamespacesDDL.ddlAdmissible NamespacesDDL.dupSeqState ∧
    NamespacesDDL.nsRowA ≠ NamespacesDDL.nsRowB ∧
    NamespacesDDL.nsRowA.seq = NamespacesDDL.nsRowB.seq ∧
    ¬ ((NamespacesDDL.dupSeqState.namespaces.map
        NamespacesDDL.NamespaceRow.seq).Nodup) ∧
    ¬ NamespacesDDL.claimedSeqNameUnique := by
  refine ⟨by decide, by decide, by decide, by decide, fun hclaim => ?_⟩
  have := hclaim NamespacesDDL.dupSeqState (by decide)
  exact absurd this.1 (by decide)

namespace Events

/-!
Modelled from the spec: the batch-pin event core (`BatchPinComplete`,
`persistBatch`, `persistBatchFromBroadcast`, `persistContexts` of
`internal/events`) is not under src/ — only its test file is — so the
Pin Ingestor (spec section 4.1), Batch Retriever (4.2), Batch Persistor
(4.3) and Context Pinner (4.4) are modelled from the spec's words. Hash
computations (manifest, data content, data-hash concatenation, header)
are opaque functions supplied by the environment, as the spec leaves the
byte-level canonicalization to the wire format. External collaborators
(identity resolver, database plugin, shared storage) are modelled by
their spec section 6 contracts as environment-supplied outcomes.
-/

abbrev UUID := Nat
abbrev Hash := Nat

/-- `{author, key}` signing reference. -/
structure SignerRef where
  author : Str
  key : Str
  deriving DecidableEq

/-- A data item `{id, hash, value_ref, blob?}`; the canonicalized value
plus blob hash is abstracted to one opaque payload number hashed by the
environment. -/
structure DataItem where
  id : UUID
  hash : Hash
  value : Nat
  deriving DecidableEq

/-- A message: header fields the Persistor checks (id, signer, topics,
data refs with hashes, data_hash) plus the header hash. -/
structure MessageRec where
  id : Option UUID
  signer : SignerRef
  topics : List Str
  dataRefs : List (UUID × Hash)
  dataHash : Hash
  hash : Hash
  deriving DecidableEq

/-- A batch `{id, signer, hash, payload:{tx, messages, data}}`. -/
structure Batch where
  id : Option UUID
  hash : Option Hash
  signer : SignerRef
  txId : Option UUID
  messages : List MessageRec
  data : List DataItem
  deriving DecidableEq

/-- Result of `upsert_batch` from the database plugin: ok, the
hash-mismatch sentinel, or another (transient) error. -/
inductive UpsertBatchRes
  | ok
  | hashMismatch
  | fail (e : GoErr)
  deriving DecidableEq

/-- The database writes the Batch Persistor can issue. -/
inductive DBWrite
  | upsertBatchW
  | insertDataW
  | upsertDataW (i : Nat)
  | insertMessagesW
  | upsertMessageW (i : Nat)
  deriving DecidableEq

/-- `persist(batch, expected_hash?) → (stored_batch, valid, err)`, plus
the trace of database writes issued. -/
structure PersistResult where
  stored : Option Batch
  valid : Bool
  err : Option GoErr
  writes : List DBWrite
  deriving DecidableEq

/-- Environment of the Batch Persistor: the opaque hash functions, the
identity resolver, and the database plugin outcomes for this unit of
work. -/
structure PersistEnv where
  manifestHash : Batch → Hash
  dataContentHash : DataItem → Hash
  concatHash : List Hash → Hash
  headerHash : MessageRec → Hash
  resolveKey : Str → Except GoErr Str
  upsertBatchRes : UpsertBatchRes
  insertDataRes : Option GoErr
  upsertDataRes : Nat → Option GoErr
  insertMessagesRes : Option GoErr
  upsertMessageRes : Nat → Option GoErr

/-- Spec 4.3 step 2: the chain-hash check fails when a provided
`expected_hash` differs from `batch.hash`, or `batch.hash` differs from
the recomputed manifest hash. -/
def chainHashMismatch (env : PersistEnv) (batch : Batch)
    (expected : Option Hash) : Bool :=
  (match expected with
   | some h2 => !(batch.hash == some h2)
   | none => false) ||
  !(batch.hash == some (env.manifestHash batch))

/-- Per-row upsert fallback (spec 4.3 steps 5 and 7): upsert each of
`count` rows in existing-preferred mode; a per-row transient error stops
the loop and propagates. Returns the writes issued and the error. -/
def perRow (res : Nat → Option GoErr) (mk : Nat → DBWrite) :
    Nat → Nat → List DBWrite × Option GoErr
  | _, 0 => ([], none)
  | i, n + 1 =>
    match res i with
    | some e => ([mk i], some e)
    | none =>
      let rest := perRow res mk (i + 1) n
      (mk i :: rest.1, rest.2)

/-- Spec 4.3 step 6: a data item is valid when its hash matches the
recomputed content hash. -/
def dataItemValid (env : PersistEnv) (d : DataItem) : Bool :=
  env.dataContentHash d == d.hash

/-- Find a referenced data item in the batch payload. -/
def lookupData (batch : Batch) (i : UUID) : Option DataItem :=
  batch.data.find? (fun d => d.id == i)

/-- Spec 4.3 step 8 (with step 6's knock-on): a message is well-formed
when every referenced data id appears in the payload with a matching,
valid data item, `data_hash` matches the hash of the ordered referenced
data hashes, the header hash matches, and the normalized signing key
equals the batch author. -/
def messageValid (env : PersistEnv) (batch : Batch)
    (m : MessageRec) : Bool :=
  m.id.isSome &&
  (m.dataRefs.all fun r =>
    match lookupData batch r.1 with
    | some d => dataItemValid env d && (d.hash == r.2)
    | none => false) &&
  (env.concatHash (m.dataRefs.map Prod.snd) == m.dataHash) &&
  (env.headerHash m == m.hash) &&
  (match env.resolveKey m.signer.key with
   | .ok a => a == batch.signer.author
   | .error _ => false)

/-- Spec 4.3 step 8 conclusion: `valid = (at least one well-formed
message persisted)`; the stored batch is returned alongside. -/
def persistFinish (env : PersistEnv) (batch : Batch)
    (ws : List DBWrite) : PersistResult :=
  let valid := batch.messages.any (messageValid env batch)
  ⟨if valid then some batch else none, valid, none, ws⟩

/-- Spec 4.3 step 7: optimistic bulk insert of messages with per-row
existing-preferred fallback; per-row transient errors propagate. -/
def persistMessages (env : PersistEnv) (batch : Batch)
    (ws : List DBWrite) : PersistResult :=
  let ws1 := ws ++ [DBWrite.insertMessagesW]
  match env.insertMessagesRes with
  | none => persistFinish env batch ws1
  | some _ =>
    let fb := perRow env.upsertMessageRes DBWrite.upsertMessageW 0
      batch.messages.length
    match fb.2 with
    | some e => ⟨none, false, some e, ws1 ++ fb.1⟩
    | none => persistFinish env batch (ws1 ++ fb.1)

/-- Spec 4.3 step 5: optimistic bulk insert of data with per-row
existing-preferred fallback; per-row transient errors propagate. -/
def persistData (env : PersistEnv) (batch : Batch)
    (ws : List DBWrite) : PersistResult :=
  let ws1 := ws ++ [DBWrite.insertDataW]
  match env.insertDataRes with
  | none => persistMessages env batch ws1
  | some _ =>
    let fb := perRow env.upsertDataRes DBWrite.upsertDataW 0
      batch.data.length
    match fb.2 with
    | some e => ⟨none, false, some e, ws1 ++ fb.1⟩
    | none => persistMessages env batch (ws1 ++ fb.1)

/-- Modelled from the spec: `persistBatch` (Batch Persistor, spec 4.3;
the implementation is not under src/). Steps in order: shape check,
chain-hash check, author check, batch upsert with the hash-mismatch
sentinel, then data/message persistence and validation. -/
def persistBatch (env : PersistEnv) (batch : Batch)
    (expected : Option Hash) : PersistResult :=
  if batch.id.isNone || batch.messages.isEmpty then
    ⟨none, false, none, []⟩
  else if chainHashMismatch env batch expected then
    ⟨none, false, none, []⟩
  else
    match env.resolveKey batch.signer.key with
    | .error e => ⟨none, false, some e, []⟩
    | .ok a =>
      if !(a == batch.signer.author) then ⟨none, false, none, []⟩
      else
        match env.upsertBatchRes with
        | .hashMismatch => ⟨none, false, none, [DBWrite.upsertBatchW]⟩
        | .fail e => ⟨none, false, some e, [DBWrite.upsertBatchW]⟩
        | .ok => persistData env batch [DBWrite.upsertBatchW]

/-- Modelled from the spec: `persistBatchFromBroadcast` — persistence of
a batch reconstructed from shared storage, with the expected hash taken
from the pin (spec 4.3 step 2). -/
def persistBatchFromBroadcast (env : PersistEnv) (batch : Batch)
    (onchainHash : Hash) : Bool × Option GoErr :=
  let r := persistBatch env batch (some onchainHash)
  (r.valid, r.err)

/-- A stored context-pin row `{hash, batch_id, index, signer,
dispatched, sequence}` (spec section 3). -/
structure PinRow where
  hash : Hash
  batchId : UUID
  index : Nat
  signer : Str
  dispatched : Bool
  sequence : Nat
  deriving DecidableEq

/-- A pin row as constructed by the Context Pinner, before the store
assigns its sequence: `{hash, batch_id, index, signer,
dispatched:false}` (spec 4.4 step 1). -/
structure PinProto where
  hash : Hash
  batchId : UUID
  index : Nat
  signer : Str
  deriving DecidableEq

/-- The pins table with its monotone sequence allocator. -/
structure PinDB where
  rows : List PinRow
  nextSeq : Nat
  deriving DecidableEq

/-- Row identity for replay detection. -/
def pinMatches (r : PinRow) (p : PinProto) : Bool :=
  r.hash == p.hash && r.batchId == p.batchId && r.index == p.index

/-- Whether a row for this pin already exists in the store. -/
def pinExists (db : PinDB) (p : PinProto) : Bool :=
  db.rows.any (fun r => pinMatches r p)

/-- The store inserts a pin, assigning the next sequence atomically
(spec 4.4: sequence is assigned atomically on first insert). -/
def insertPinRow (db : PinDB) (p : PinProto) : PinDB :=
  ⟨db.rows ++ [⟨p.hash, p.batchId, p.index, p.signer, false, db.nextSeq⟩],
    db.nextSeq + 1⟩

/-- Bulk insert of all pins, in order. -/
def insertAllPins (db : PinDB) : List PinProto → PinDB
  | [] => db
  | p :: ps => insertAllPins (insertPinRow db p) ps

/-- `insert_pins` (bulk insert-many): fails with the duplicate error on
a replay, i.e. when any of the rows already exists. -/
def insertPins (db : PinDB) (ps : List PinProto) : Except Unit PinDB :=
  if ps.any (pinExists db) then .error () else .ok (insertAllPins db ps)

/-- `upsert_pin`: preserves an existing row untouched (its sequence and
dispatched flag in particular), otherwise inserts with a fresh
sequence. -/
def upsertPin (db : PinDB) (p : PinProto) : PinDB :=
  if pinExists db p then db else insertPinRow db p

/-- The per-row upsert fallback loop, with an environment oracle for a
transient store failure at the i-th upsert call. -/
def upsertPinLoop (fail : Nat → Option GoErr) :
    PinDB → Nat → List PinProto → PinDB × Option GoErr
  | db, _, [] => (db, none)
  | db, i, p :: ps =>
    match fail i with
    | some e => (db, some e)
    | none => upsertPinLoop fail (upsertPin db p) (i + 1) ps

/-- The pin rows for a batch: one per context hash, indexed in order,
dispatched=false (spec 4.4 step 1). -/
def mkPinProtos (contexts : List Hash) (batchId : UUID)
    (signer : Str) : List PinProto :=
  contexts.enum.map (fun pr => ⟨pr.2, batchId, pr.1, signer⟩)

/-- Modelled from the spec: `persistContexts` (Context Pinner, spec
4.4; the implementation is not under src/). Attempt a bulk insert-many
of all pins for the batch; on the duplicate error (replay), fall back to
per-row upsert, which preserves existing rows; a per-row upsert error
propagates. -/
def persistContexts (fail : Nat → Option GoErr) (db : PinDB)
    (contexts : List Hash) (batchId : UUID) (signer : Str) :
    PinDB × Option GoErr :=
  let protos := mkPinProtos contexts batchId signer
  match insertPins db protos with
  | .ok db2 => (db2, none)
  | .error _ => upsertPinLoop fail db 0 protos

/-- Outcome of `insert_blockchain_event`: ok, duplicate
`(protocol_id, listener)` detected, or a transient failure. -/
inductive BEventRes
  | ok
  | duplicate
  | fail (e : GoErr)
  deriving DecidableEq

/-- Observable processing effects of one ingested pin: durable writes
and the user-level blockchain event, the shared-storage read, the
Persistor's database writes, and the context-pin persistence. -/
inductive Effect
  | persistTransaction
  | insertBlockchainEvent
  | emitBlockchainEventReceived
  | retrieveData
  | dbWrite (w : DBWrite)
  | insertPinsE
  deriving DecidableEq

/-- An inbound batch-pin event from the ledger adapter (spec section
6): an empty `payload_ref` means a private pin. -/
structure BatchPinEv where
  ns : Str
  txId : Option UUID
  batchId : UUID
  batchHash : Hash
  payloadRef : Str
  contexts : List Hash
  deriving DecidableEq

/-- Environment of the Pin Ingestor: the Persistor environment, the
identity resolver for the event verifier, the tx-helper and blockchain
event outcomes, the shared-storage retrieval attempts with the
cancellation bound on the retry loop, the canonical batch decoder, and
the pin-store failure oracle. -/
structure IngestEnv where
  persistEnv : PersistEnv
  resolveVerifier : Except GoErr Str
  persistTxRes : Except GoErr Bool
  insertBEventRes : BEventRes
  cancelFuel : Nat
  retrieveAttempt : Nat → Except GoErr Str
  decode : Str → Option Batch
  pinFail : Nat → Option GoErr

/-- Retry with backoff bounded by the ambient cancellation token (spec
4.2): `fuel` is the number of re-attempts the token still admits; when
it is exhausted the current attempt's error surfaces. -/
def retryAttempts (attempt : Nat → Except GoErr Str) :
    Nat → Nat → Except GoErr Str
  | i, 0 => attempt i
  | i, fuel + 1 =>
    match attempt i with
    | .ok v => .ok v
    | .error _ => retryAttempts attempt (i + 1) fuel

/-- The bounded retry loop around a shared-storage read. -/
def retryDo (fuel : Nat) (attempt : Nat → Except GoErr Str) :
    Except GoErr Str :=
  retryAttempts attempt 0 fuel

/-- Modelled from the spec: `BatchPinComplete` (Pin Ingestor, spec 4.1;
the implementation is not under src/). Validate the namespace grammar
(swallow on failure), resolve the verifier, short-circuit on a missing
transaction id, persist the transaction and blockchain event, then hand
off: broadcast pins are retrieved from shared storage, decoded, and
persisted (4.2, 4.3) before context pinning (4.4); private pins go
straight to context pinning. Returns the error surfaced to the retry
loop, the effects performed, and the pin store. -/
def batchPinComplete (env : IngestEnv) (db : PinDB) (pin : BatchPinEv)
    (verifier : Str) : Option GoErr × List Effect × PinDB :=
  if !(FFTypes.validateFFNameField pin.ns) then (none, [], db)
  else
    match env.resolveVerifier with
    | .error e => (some e, [], db)
    | .ok _author =>
      match pin.txId with
      | none => (none, [], db)
      | some _ =>
        match env.persistTxRes with
        | .error e => (some e, [Effect.persistTransaction], db)
        | .ok false => (none, [Effect.persistTransaction], db)
        | .ok true =>
          match env.insertBEventRes with
          | .fail e =>
            (some e, [Effect.persistTransaction,
              Effect.insertBlockchainEvent], db)
          | .duplicate =>
            (none, [Effect.persistTransaction,
              Effect.insertBlockchainEvent], db)
          | .ok =>
            let eff0 := [Effect.persistTransaction,
              Effect.insertBlockchainEvent,
              Effect.emitBlockchainEventReceived]
            if pin.payloadRef == [] then
              let pc := persistContexts env.pinFail db pin.contexts
                pin.batchId verifier
              (pc.2, eff0 ++ [Effect.insertPinsE], pc.1)
            else
              match retryDo env.cancelFuel env.retrieveAttempt with
              | .error e => (some e, eff0 ++ [Effect.retrieveData], db)
              | .ok bytes =>
                match env.decode bytes with
                | none => (none, eff0 ++ [Effect.retrieveData], db)
                | some batch =>
                  let pr := persistBatch env.persistEnv batch
                    (some pin.batchHash)
                  let eff1 := (eff0 ++ [Effect.retrieveData]) ++
                    pr.writes.map Effect.dbWrite
                  match pr.err with
                  | some e => (some e, eff1, db)
                  | none =>
                    if pr.valid then
                      let pc := persistContexts env.pinFail db
                        pin.contexts pin.batchId verifier
                      (pc.2, eff1 ++ [Effect.insertPinsE], pc.1)
                    else (none, eff1, db)

/-- The chain-hash check fires when a provided expected hash differs
from the batch hash, or the batch hash differs from the recomputed
manifest hash. -/
theorem chainHashMismatch_of_ne (env : PersistEnv) (batch : Batch)
    (expected : Option Hash)
    (h : (∃ h2, expected = some h2 ∧ batch.hash ≠ some h2) ∨
      batch.hash ≠ some (env.manifestHash batch)) :
    chainHashMismatch env batch expected = true := by
  rcases h with ⟨h2, rfl, hne⟩ | hne
  · have hb : (batch.hash == some h2) = false := beq_eq_false_iff_ne.mpr hne
    simp [chainHashMismatch, hb]
  · have hb : (batch.hash == some (env.manifestHash batch)) = false :=
      beq_eq_false_iff_ne.mpr hne
    simp [chainHashMismatch, hb]

/-- A failing chain-hash check short-circuits the Persistor with
`valid=false`, no error, and no database writes. -/
theorem persistBatch_of_mismatch (env : PersistEnv) (batch : Batch)
    (expected : Option Hash)
    (h : chainHashMismatch env batch expected = true) :
    persistBatch env batch expected = ⟨none, false, none, []⟩ := by
  cases hs : (batch.id.isNone || batch.messages.isEmpty) <;>
    simp [persistBatch, hs, h]

/-- `upsert_pin` never removes or modifies a stored row. -/
theorem upsertPin_mem (db : PinDB) (p : PinProto) (r : PinRow)
    (h : r ∈ db.rows) : r ∈ (upsertPin db p).rows := by
  unfold upsertPin
  split
  · exact h
  · simp only [insertPinRow, List.mem_append]
    exact Or.inl h

/-- When no upsert call fails, the fallback loop returns no error and
preserves every stored row untouched. -/
theorem upsertPinLoop_all_ok (fail : Nat → Option GoErr)
    (hnone : ∀ i, fail i = none) (ps : List PinProto) :
    ∀ db i, (upsertPinLoop fail db i ps).2 = none ∧
      ∀ r ∈ db.rows, r ∈ (upsertPinLoop fail db i ps).1.rows := by
  induction ps with
  | nil => intro db i; simp [upsertPinLoop]
  | cons p ps ih =>
    intro db i
    simp only [upsertPinLoop, hnone i]
    exact ⟨(ih _ _).1,
      fun r hr => (ih _ _).2 r (upsertPin_mem db p r hr)⟩

/-- One pin row is constructed per context hash. -/
theorem mkPinProtos_length (cs : List Hash) (b : UUID) (s : Str) :
    (mkPinProtos cs b s).length = cs.length := by
  simp [mkPinProtos]

/-- When every attempt fails, the bounded retry loop returns the error
of the attempt on which the cancellation token ends it. -/
theorem retryAttempts_all_fail (attempt : Nat → Except GoErr Str)
    (es : Nat → GoErr) (hall : ∀ n, attempt n = .error (es n)) :
    ∀ fuel i, retryAttempts attempt i fuel = .error (es (i + fuel)) := by
  intro fuel
  induction fuel with
  | zero => intro i; simp [retryAttempts, hall i]
  | succ n ih =>
    intro i
    have : i + (n + 1) = (i + 1) + n := by omega
    rw [this, retryAttempts, hall i, ih (i + 1)]

end Events

/-- **C1**: a chain-hash mismatch (provided expected hash differing
from `batch.hash`, or `batch.hash` differing from the recomputed
manifest hash) makes `persistBatch` — and `persistBatchFromBroadcast`
with the pin's hash — return `valid=false` with a nil error, no stored
batch, and no database writes; at the ingest level the pin yields no
batch row, nothing dispatchable, and the ingestor returns ok. -/
theorem batch_hash_mismatch_swallowed :
    (∀ (env : Events.PersistEnv) (batch : Events.Batch)
        (expected : Option Events.Hash),
      ((∃ h2, expected = some h2 ∧ batch.hash ≠ some h2) ∨
        batch.hash ≠ some (env.manifestHash batch)) →
      Events.persistBatch env batch expected = ⟨none, false, none, []⟩) ∧
    (∀ (env : Events.PersistEnv) (batch : Events.Batch)
        (h : Events.Hash),
      (batch.hash ≠ some h ∨
        batch.hash ≠ some (env.manifestHash batch)) →
      Events.persistBatchFromBroadcast env batch h = (false, none)) ∧
    (∀ (env : Events.IngestEnv) (db : Events.PinDB)
        (pin : Events.BatchPinEv) (v a : Str) (t : Events.UUID)
        (bs : Str) (batch : Events.Batch),
      FFTypes.validateFFNameField pin.ns = true →
      env.resolveVerifier = .ok a →
      pin.txId = some t →
      env.persistTxRes = .ok true →
      env.insertBEventRes = .ok →
      (pin.payloadRef == ([] : Str)) = false →
      Events.retryDo env.cancelFuel env.retrieveAttempt = .ok bs →
      env.decode bs = some batch →
      (batch.hash ≠ some pin.batchHash ∨
        batch.hash ≠ some (env.persistEnv.manifestHash batch)) →
      Events.batchPinComplete env db pin v =
        (none, [.persistTransaction, .insertBlockchainEvent,
          .emitBlockchainEventReceived, .retrieveData], db)) := by
  refine ⟨?persist, ?fromBroadcast, ?ingest⟩
  case persist =>
    intro env batch expected h
    exact Events.persistBatch_of_mismatch env batch expected
      (Events.chainHashMismatch_of_ne env batch expected h)
  case fromBroadcast =>
    intro env batch h hne
    have hpb := Events.persistBatch_of_mismatch env batch (some h)
      (Events.chainHashMismatch_of_ne env batch (some h)
        (hne.imp (fun hx => ⟨h, rfl, hx⟩) id))
    simp [Events.persistBatchFromBroadcast, hpb]
  case ingest =>
    intro env db pin v a t bs batch hns hrv htx hptx hbe hbc hretry
      hdecode hmm
    have hpb := Events.persistBatch_of_mismatch env.persistEnv batch
      (some pin.batchHash)
      (Events.chainHashMismatch_of_ne env.persistEnv batch
        (some pin.batchHash)
        (hmm.imp (fun hx => ⟨pin.batchHash, rfl, hx⟩) id))
    simp [Events.batchPinComplete, hns, hrv, htx, hptx, hbe, hbc,
      hretry, hdecode, hpb]

/-- **C3**: during batch persistence, a transient identity-resolver
failure on `batch.signer.key` yields `valid=false` with the (retryable)
non-nil error, while a successfully resolved author differing from
`batch.signer.author` yields `valid=false` with a nil error. -/
theorem batch_author_resolution :
    (∀ (env : Events.PersistEnv) (batch : Events.Batch)
        (expected : Option Events.Hash) (e : GoErr),
      batch.id.isNone = false → batch.messages.isEmpty = false →
      Events.chainHashMismatch env batch expected = false →
      env.resolveKey batch.signer.key = .error e →
      Events.persistBatch env batch expected =
        ⟨none, false, some e, []⟩) ∧
    (∀ (env : Events.PersistEnv) (batch : Events.Batch)
        (expected : Option Events.Hash) (a : Str),
      batch.id.isNone = false → batch.messages.isEmpty = false →
      Events.chainHashMismatch env batch expected = false →
      env.resolveKey batch.signer.key = .ok a →
      a ≠ batch.signer.author →
      Events.persistBatch env batch expected =
        ⟨none, false, none, []⟩) := by
  constructor
  · intro env batch expected e hid hmsg hch hres
    simp [Events.persistBatch, hid, hmsg, hch, hres]
  · intro env batch expected a hid hmsg hch hres hne
    have hbeq : (a == batch.signer.author) = false :=
      beq_eq_false_iff_ne.mpr hne
    simp [Events.persistBatch, hid, hmsg, hch, hres, hbeq]

/-- **C5**: once the shape, hash, and author checks pass, the store's
hash-mismatch sentinel on the batch upsert makes `persistBatch` return
`valid=false` with nil error and no stored batch, while any other store
error is returned (retryable) with `valid=false`. -/
theorem batch_upsert_outcomes :
    (∀ (env : Events.PersistEnv) (batch : Events.Batch)
        (expected : Option Events.Hash),
      batch.id.isNone = false → batch.messages.isEmpty = false →
      Events.chainHashMismatch env batch expected = false →
      env.resolveKey batch.signer.key = .ok batch.signer.author →
      env.upsertBatchRes = .hashMismatch →
      Events.persistBatch env batch expected =
        ⟨none, false, none, [.upsertBatchW]⟩) ∧
    (∀ (env : Events.PersistEnv) (batch : Events.Batch)
        (expected : Option Events.Hash) (e : GoErr),
      batch.id.isNone = false → batch.messages.isEmpty = false →
      Events.chainHashMismatch env batch expected = false →
      env.resolveKey batch.signer.key = .ok batch.signer.author →
      env.upsertBatchRes = .fail e →
      Events.persistBatch env batch expected =
        ⟨none, false, some e, [.upsertBatchW]⟩) := by
  constructor
  · intro env batch expected hid hmsg hch hres hup
    simp [Events.persistBatch, hid, hmsg, hch, hres, hup]
  · intro env batch expected e hid hmsg hch hres hup
    simp [Events.persistBatch, hid, hmsg, hch, hres, hup]

/-- **C6**: `persist_contexts` first attempts the bulk insert of all pin
rows (succeeding with freshly assigned sequences when none exists yet);
on the duplicate/replay error it falls back to per-row upsert, which
returns no error and preserves every existing row untouched — in
particular its originally assigned `sequence` and its `dispatched`
flag — while an error from the per-row upsert itself propagates. -/
theorem persist_contexts_replay :
    (∀ (fail : Nat → Option GoErr) (db : Events.PinDB)
        (cs : List Events.Hash) (b : Events.UUID) (s : Str),
      (Events.mkPinProtos cs b s).any (Events.pinExists db) = false →
      Events.persistContexts fail db cs b s =
        (Events.insertAllPins db (Events.mkPinProtos cs b s), none)) ∧
    (∀ (fail : Nat → Option GoErr) (db : Events.PinDB)
        (cs : List Events.Hash) (b : Events.UUID) (s : Str),
      (Events.mkPinProtos cs b s).any (Events.pinExists db) = true →
      (∀ i, fail i = none) →
      (Events.persistContexts fail db cs b s).2 = none ∧
        ∀ r ∈ db.rows,
          r ∈ (Events.persistContexts fail db cs b s).1.rows) ∧
    (∀ (fail : Nat → Option GoErr) (db : Events.PinDB)
        (cs : List Events.Hash) (b : Events.UUID) (s : Str) (e : GoErr),
      (Events.mkPinProtos cs b s).any (Events.pinExists db) = true →
      fail 0 = some e → cs ≠ [] →
      (Events.persistContexts fail db cs b s).2 = some e) := by
  refine ⟨?bulk, ?fallback, ?propagate⟩
  case bulk =>
    intro fail db cs b s hnew
    simp [Events.persistContexts, Events.insertPins, hnew]
  case fallback =>
    intro fail db cs b s hdup hnone
    have hloop := Events.upsertPinLoop_all_ok fail hnone
      (Events.mkPinProtos cs b s) db 0
    constructor
    · simp only [Events.persistContexts, Events.insertPins, hdup,
        if_true]
      exact hloop.1
    · intro r hr
      simp only [Events.persistContexts, Events.insertPins, hdup,
        if_true]
      exact hloop.2 r hr
  case propagate =>
    intro fail db cs b s e hdup hfail hcs
    rcases hp : Events.mkPinProtos cs b s with _ | ⟨p, ps⟩
    · exfalso
      have := Events.mkPinProtos_length cs b s
      rw [hp] at this
      exact hcs (List.length_eq_zero.mp this.symm)
    · rw [hp] at hdup
      simp [Events.persistContexts, Events.insertPins, hp, hdup,
        Events.upsertPinLoop, hfail]

/-- **C7**: for a broadcast pin, a payload that fails the canonical
batch decoding is terminal invalid and swallowed (`BatchPinComplete`
returns no error), while a shared-storage failure is transient: the
retry loop is bounded by the ambient cancellation token (returning the
error of the attempt on which the token ends it) and the error surfaces
from `BatchPinComplete` as retryable. -/
theorem broadcast_retrieve_classification :
    (∀ (fuel : Nat) (attempt : Nat → Except GoErr Str)
        (es : Nat → GoErr),
      (∀ n, attempt n = .error (es n)) →
      Events.retryDo fuel attempt = .error (es fuel)) ∧
    (∀ (env : Events.IngestEnv) (db : Events.PinDB)
        (pin : Events.BatchPinEv) (v a : Str) (t : Events.UUID)
        (e : GoErr),
      FFTypes.validateFFNameField pin.ns = true →
      env.resolveVerifier = .ok a →
      pin.txId = some t →
      env.persistTxRes = .ok true →
      env.insertBEventRes = .ok →
      (pin.payloadRef == ([] : Str)) = false →
      Events.retryDo env.cancelFuel env.retrieveAttempt = .error e →
      Events.batchPinComplete env db pin v =
        (some e, [.persistTransaction, .insertBlockchainEvent,
          .emitBlockchainEventReceived, .retrieveData], db)) ∧
    (∀ (env : Events.IngestEnv) (db : Events.PinDB)
        (pin : Events.BatchPinEv) (v a : Str) (t : Events.UUID)
        (bs : Str),
      FFTypes.validateFFNameField pin.ns = true →
      env.resolveVerifier = .ok a →
      pin.txId = some t →
      env.persistTxRes = .ok true →
      env.insertBEventRes = .ok →
      (pin.payloadRef == ([] : Str)) = false →
      Events.retryDo env.cancelFuel env.retrieveAttempt = .ok bs →
      env.decode bs = none →
      Events.batchPinComplete env db pin v =
        (none, [.persistTransaction, .insertBlockchainEvent,
          .emitBlockchainEventReceived, .retrieveData], db)) := by
  refine ⟨?bounded, ?transient, ?invalid⟩
  case bounded =>
    intro fuel attempt es hall
    have := Events.retryAttempts_all_fail attempt es hall fuel 0
    simpa [Events.retryDo] using this
  case transient =>
    intro env db pin v a t e hns hrv htx hptx hbe hbc hretry
    simp [Events.batchPinComplete, hns, hrv, htx, hptx, hbe, hbc,
      hretry]
  case invalid =>
    intro env db pin v a t bs hns hrv htx hptx hbe hbc hretry hdecode
    simp [Events.batchPinComplete, hns, hrv, htx, hptx, hbe, hbc,
      hretry, hdecode]

/-- **C8**: the ingest operation returns ok with no processing effects
both for a pin whose namespace fails the name grammar and for a pin
with no transaction id. -/
theorem ingest_bad_namespace_or_no_tx :
    (∀ (env : Events.IngestEnv) (db : Events.PinDB)
        (pin : Events.BatchPinEv) (v : Str),
      FFTypes.validateFFNameField pin.ns = false →
      Events.batchPinComplete env db pin v = (none, [], db)) ∧
    (∀ (env : Events.IngestEnv) (db : Events.PinDB)
        (pin : Events.BatchPinEv) (v a : Str),
      FFTypes.validateFFNameField pin.ns = true →
      env.resolveVerifier = .ok a →
      pin.txId = none →
      Events.batchPinComplete env db pin v = (none, [], db)) := by
  constructor
  · intro env db pin v hns
    simp [Events.batchPinComplete, hns]
  · intro env db pin v a hns hrv htx
    simp [Events.batchPinComplete, hns, hrv, htx]

namespace Events

/-- Concrete signer for witnesses. -/
def wSigner : SignerRef := ⟨['a'], ['k']⟩

/-- Concrete message for witnesses. -/
def wMsg : MessageRec :=
  { id := some 10, signer := wSigner, topics := [['t']], dataRefs := [],
    dataHash := 0, hash := 0 }

/-- Concrete batch for witnesses: `hash = some 7`. -/
def wBatch : Batch :=
  { id := some 1, hash := some 7, signer := wSigner, txId := some 2,
    messages := [wMsg], data := [] }

/-- Concrete Persistor environment: the manifest hash of every batch is
7, the resolver normalizes every key to the author of `wBatch`. -/
def wPE : PersistEnv :=
  { manifestHash := fun _ => 7, dataContentHash := fun _ => 0,
    concatHash := fun _ => 0, headerHash := fun _ => 0,
    resolveKey := fun _ => .ok ['a'], upsertBatchRes := .ok,
    insertDataRes := none, upsertDataRes := fun _ => none,
    insertMessagesRes := none, upsertMessageRes := fun _ => none }

/-- Persistor environment whose resolver fails transiently. -/
def wPEresolveErr : PersistEnv :=
  { wPE with resolveKey := fun _ => .error ['p', 'o', 'p'] }

/-- Persistor environment whose resolver returns a different author. -/
def wPEwrongAuthor : PersistEnv :=
  { wPE with resolveKey := fun _ => .ok ['b'] }

/-- Persistor environment whose batch upsert hits the hash-mismatch
sentinel. -/
def wPEupsertMismatch : PersistEnv :=
  { wPE with upsertBatchRes := .hashMismatch }

/-- Persistor environment whose batch upsert fails transiently. -/
def wPEupsertFail : PersistEnv :=
  { wPE with upsertBatchRes := .fail ['p'] }

/-- Concrete broadcast pin whose on-chain hash (9) disagrees with the
hash of the batch the payload decodes to (7). -/
def wPin : BatchPinEv :=
  { ns := ['n', 's', '1'], txId := some 3, batchId := 4, batchHash := 9,
    payloadRef := ['Q'], contexts := [5] }

/-- Pin with a namespace failing the name grammar. -/
def wPinBadNs : BatchPinEv := { wPin with ns := ['!'] }

/-- Pin with no transaction id. -/
def wPinNoTx : BatchPinEv := { wPin with txId := none }

/-- Concrete ingest environment: every collaborator succeeds, the
payload decodes to `wBatch`, and the cancellation token admits no
retries. -/
def wIE : IngestEnv :=
  { persistEnv := wPE, resolveVerifier := .ok ['a'],
    persistTxRes := .ok true, insertBEventRes := .ok, cancelFuel := 0,
    retrieveAttempt := fun _ => .ok ['x'],
    decode := fun _ => some wBatch, pinFail := fun _ => none }

/-- Ingest environment whose shared-storage read fails. -/
def wIEretrieveFail : IngestEnv :=
  { wIE with retrieveAttempt := fun _ => .error ['p'] }

/-- Ingest environment whose payload fails the canonical decoding. -/
def wIEbadData : IngestEnv := { wIE with decode := fun _ => none }

/-- An empty pin store. -/
def wDB : PinDB := ⟨[], 0⟩

/-- A pin row already stored — dispatched, sequence 42 — matching the
single context of `wPin`. -/
def wRow : PinRow := ⟨5, 4, 0, ['v'], true, 42⟩

/-- A pin store already holding `wRow`. -/
def wDBreplay : PinDB := ⟨[wRow], 43⟩

end Events

/-- Witness for C1: the mismatched expected hash 9 against batch hash 7
short-circuits the Persistor at every level, and the full ingest of the
broadcast pin returns ok having written nothing beyond the transaction
and blockchain event. -/
theorem batch_hash_mismatch_swallowed_witness :
    Events.persistBatch Events.wPE Events.wBatch (some 9) =
      ⟨none, false, none, []⟩ ∧
    Events.persistBatchFromBroadcast Events.wPE Events.wBatch 9 =
      (false, none) ∧
    Events.batchPinComplete Events.wIE Events.wDB Events.wPin ['v'] =
      (none, [.persistTransaction, .insertBlockchainEvent,
        .emitBlockchainEventReceived, .retrieveData], Events.wDB) :=
  ⟨batch_hash_mismatch_swallowed.1 Events.wPE Events.wBatch (some 9)
      (Or.inl ⟨9, rfl, by decide⟩),
   batch_hash_mismatch_swallowed.2.1 Events.wPE Events.wBatch 9
      (Or.inl (by decide)),
   batch_hash_mismatch_swallowed.2.2 Events.wIE Events.wDB Events.wPin
      ['v'] ['a'] 3 ['x'] Events.wBatch (by decide) rfl rfl rfl rfl
      (by decide) rfl rfl (Or.inl (by decide))⟩

/-- Witness for C3 on `wBatch` (which passes the shape and chain-hash
checks): a transiently failing resolver surfaces its error; a resolver
answering a different author swallows. -/
theorem batch_author_resolution_witness :
    Events.persistBatch Events.wPEresolveErr Events.wBatch none =
      ⟨none, false, some ['p', 'o', 'p'], []⟩ ∧
    Events.persistBatch Events.wPEwrongAuthor Events.wBatch none =
      ⟨none, false, none, []⟩ :=
  ⟨batch_author_resolution.1 Events.wPEresolveErr Events.wBatch none
      ['p', 'o', 'p'] (by decide) (by decide) (by decide) rfl,
   batch_author_resolution.2 Events.wPEwrongAuthor Events.wBatch none
      ['b'] (by decide) (by decide) (by decide) rfl (by decide)⟩

/-- Witness for C5 on `wBatch`: the hash-mismatch sentinel swallows,
any other upsert error propagates. -/
theorem batch_upsert_outcomes_witness :
    Events.persistBatch Events.wPEupsertMismatch Events.wBatch none =
      ⟨none, false, none, [.upsertBatchW]⟩ ∧
    Events.persistBatch Events.wPEupsertFail Events.wBatch none =
      ⟨none, false, some ['p'], [.upsertBatchW]⟩ :=
  ⟨batch_upsert_outcomes.1 Events.wPEupsertMismatch Events.wBatch none
      (by decide) (by decide) (by decide) rfl rfl,
   batch_upsert_outcomes.2 Events.wPEupsertFail Events.wBatch none
      ['p'] (by decide) (by decide) (by decide) rfl rfl⟩

/-- Witness for C6: a fresh store takes the bulk path; a replayed
context falls back to upsert, keeping the stored row with its sequence
42 and dispatched flag; a failing upsert propagates its error. -/
theorem persist_contexts_replay_witness :
    Events.persistContexts (fun _ => none) Events.wDB [5] 4 ['v'] =
      (Events.insertAllPins Events.wDB
        (Events.mkPinProtos [5] 4 ['v']), none) ∧
    ((Events.persistContexts (fun _ => none) Events.wDBreplay [5] 4
        ['v']).2 = none ∧
      Events.wRow ∈ (Events.persistContexts (fun _ => none)
        Events.wDBreplay [5] 4 ['v']).1.rows) ∧
    (Events.persistContexts (fun _ => some ['p']) Events.wDBreplay [5]
      4 ['v']).2 = some ['p'] :=
  ⟨persist_contexts_replay.1 (fun _ => none) Events.wDB [5] 4 ['v']
      (by decide),
   ⟨(persist_contexts_replay.2.1 (fun _ => none) Events.wDBreplay [5] 4
        ['v'] (by decide) (fun _ => rfl)).1,
    (persist_contexts_replay.2.1 (fun _ => none) Events.wDBreplay [5] 4
        ['v'] (by decide) (fun _ => rfl)).2 Events.wRow (by decide)⟩,
   persist_contexts_replay.2.2 (fun _ => some ['p']) Events.wDBreplay
      [5] 4 ['v'] ['p'] (by decide) rfl (by decide)⟩

/-- Witness for C7: three failing attempts exhaust a fuel-2 token and
surface the last error; a failing retrieval surfaces from the ingest; a
non-decodable payload is swallowed. -/
theorem broadcast_retrieve_classification_witness :
    Events.retryDo 2 (fun _ => .error ['e']) = .error ['e'] ∧
    Events.batchPinComplete Events.wIEretrieveFail Events.wDB
      Events.wPin ['v'] =
      (some ['p'], [.persistTransaction, .insertBlockchainEvent,
        .emitBlockchainEventReceived, .retrieveData], Events.wDB) ∧
    Events.batchPinComplete Events.wIEbadData Events.wDB Events.wPin
      ['v'] =
      (none, [.persistTransaction, .insertBlockchainEvent,
        .emitBlockchainEventReceived, .retrieveData], Events.wDB) :=
  ⟨broadcast_retrieve_classification.1 2 (fun _ => .error ['e'])
      (fun _ => ['e']) (fun _ => rfl),
   broadcast_retrieve_classification.2.1 Events.wIEretrieveFail
      Events.wDB Events.wPin ['v'] ['a'] 3 ['p'] (by decide) rfl rfl
      rfl rfl (by decide) rfl,
   broadcast_retrieve_classification.2.2 Events.wIEbadData Events.wDB
      Events.wPin ['v'] ['a'] 3 ['x'] (by decide) rfl rfl rfl rfl
      (by decide) rfl rfl⟩

/-- Witness for C8: a pin with namespace `!` and a pin with no
transaction id are both swallowed with no processing effects. -/
theorem ingest_bad_namespace_or_no_tx_witness :
    Events.batchPinComplete Events.wIE Events.wDB Events.wPinBadNs
      ['v'] = (none, [], Events.wDB) ∧
    Events.batchPinComplete Events.wIE Events.wDB Events.wPinNoTx
      ['v'] = (none, [], Events.wDB) :=
  ⟨ingest_bad_namespace_or_no_tx.1 Events.wIE Events.wDB
      Events.wPinBadNs ['v'] (by decide),
   ingest_bad_namespace_or_no_tx.2 Events.wIE Events.wDB
      Events.wPinNoTx ['v'] ['a'] (by decide) rfl rfl⟩

